import Mathlib

/-!
Shallow embedding of the metric summarization and grading engine of the
falco quality-control tool (src/src/Module.cpp and the configuration
loader in src/unnamed/part_000), together with proofs and refutations of
the frozen specification claims.

Modelling conventions:
* `size_t` values are modelled as `Nat`; where wrap-around of `size_t`
  subtraction matters it is made explicit with `usub` (reduction mod 2^64).
* `double` arithmetic is modelled exactly over `ℚ` (the computations under
  scrutiny are sums, products and divisions of rationals).
* The source splits several per-position arrays into a dense short-read part
  and a sparse long-read part (`x[i]` for `i < kNumBases` versus
  `long_x[i - kNumBases]`); both parts together are modelled as one total
  function from the position index.
* C++ `while`/`for` loops are modelled as structural recursions (with the
  loop bound as the recursion fuel) or as `List.foldl` over the range of the
  loop counter, so that every definition evaluates by kernel reduction.
-/

namespace Falco

/-! ## Base position groups (Module.cpp, make_base_groups, lines 53-79) -/

/-- A contiguous run of base positions reported as one row
(`BaseGroup(start, end)` in the source). -/
structure BaseGroup where
  start : Nat
  end_ : Nat
deriving DecidableEq, Repr

/-- The cascade of interval updates performed at the bottom of each
`make_base_groups` loop iteration (Module.cpp lines 68-77), evaluated at the
already-incremented `starting_base`.  Each `if` tests the single current value
of `starting_base`, so at most one branch fires. -/
def nextInterval (num_bases sb iv : Nat) : Nat :=
  let iv1 := if sb = 9 ∧ num_bases > 75 then 5 else iv
  let iv2 := if sb = 49 ∧ num_bases > 200 then 10 else iv1
  let iv3 := if sb = 99 ∧ num_bases > 300 then 50 else iv2
  let iv4 := if sb = 499 ∧ num_bases > 1000 then 100 else iv3
  if sb = 1000 ∧ num_bases > 2000 then 500 else iv4

/-- Loop body of `make_base_groups`: starting at `starting_base = sb` with the
current `interval = iv`, emit the group `[sb, end_base]` where `end_base` is
clamped to `num_bases` (note: to `num_bases`, not `num_bases - 1`; Module.cpp
lines 62-64), then advance by `iv` and update the interval.  The C++ loop
terminates because `interval ≥ 1` throughout; here the number of remaining
iterations is bounded by the explicit fuel argument, which `make_base_groups`
instantiates large enough to never run out. -/
def make_base_groups_go (num_bases : Nat) : Nat → Nat → Nat → List BaseGroup
  | 0, _, _ => []
  | fuel + 1, sb, iv =>
    if sb < num_bases then
      ⟨sb, if num_bases ≤ sb + iv - 1 then num_bases else sb + iv - 1⟩ ::
        make_base_groups_go num_bases fuel (sb + iv) (nextInterval num_bases (sb + iv) iv)
    else []

/-- `make_base_groups` (Module.cpp lines 53-79): the grouping of base
positions used by the per-base quality module when grouping is enabled. -/
def make_base_groups (num_bases : Nat) : List BaseGroup :=
  make_base_groups_go num_bases (num_bases + 1) 0 1

/-- The interval (group width) schedule that `make_base_groups` actually
follows, as a function of the group start `s` and of `num_bases`: each widening
stage is additionally guarded by a lower bound on `num_bases`, and the
width-500 stage of the source (guarded by `starting_base == 1000`) is
unreachable, because with `num_bases > 2000` the loop steps from 499 in
increments of 100 and therefore never visits 1000. -/
def schedInterval (num_bases s : Nat) : Nat :=
  if 1000 < num_bases ∧ 499 ≤ s then 100
  else if 300 < num_bases ∧ 99 ≤ s then 50
  else if 200 < num_bases ∧ 49 ≤ s then 10
  else if 75 < num_bases ∧ 9 ≤ s then 5
  else 1

/-- Reference form of the grouping loop, stepping directly by
`schedInterval`. -/
def sched_groups_go (num_bases : Nat) : Nat → Nat → List BaseGroup
  | 0, _ => []
  | fuel + 1, s =>
    if s < num_bases then
      ⟨s, if num_bases ≤ s + schedInterval num_bases s - 1 then num_bases
          else s + schedInterval num_bases s - 1⟩ ::
        sched_groups_go num_bases fuel (s + schedInterval num_bases s)
    else []

/-- Alignment invariant of the grouping loop: whenever the schedule is in a
widened stage, the current start position is congruent to the stage's entry
point modulo the stage width. -/
def GroupInv (num_bases s : Nat) : Prop :=
  (schedInterval num_bases s = 5 → s % 5 = 4) ∧
  (schedInterval num_bases s = 10 → s % 10 = 9) ∧
  (schedInterval num_bases s = 50 → s % 50 = 49) ∧
  (schedInterval num_bases s = 100 → s % 100 = 99)

theorem schedInterval_pos (num_bases s : Nat) : 0 < schedInterval num_bases s := by
  unfold schedInterval
  split_ifs <;> omega

theorem schedInterval_cases (num_bases s : Nat) :
    (schedInterval num_bases s = 100 ∧ 1000 < num_bases ∧ 499 ≤ s) ∨
    (schedInterval num_bases s = 50 ∧ 300 < num_bases ∧ 99 ≤ s ∧
      ¬(1000 < num_bases ∧ 499 ≤ s)) ∨
    (schedInterval num_bases s = 10 ∧ 200 < num_bases ∧ 49 ≤ s ∧
      ¬(300 < num_bases ∧ 99 ≤ s)) ∨
    (schedInterval num_bases s = 5 ∧ 75 < num_bases ∧ 9 ≤ s ∧
      ¬(200 < num_bases ∧ 49 ≤ s)) ∨
    (schedInterval num_bases s = 1 ∧ ¬(75 < num_bases ∧ 9 ≤ s)) := by
  unfold schedInterval
  split_ifs <;> omega

set_option maxHeartbeats 1000000 in
theorem groupInv_step (num_bases s : Nat) (h : GroupInv num_bases s) :
    nextInterval num_bases (s + schedInterval num_bases s) (schedInterval num_bases s) =
      schedInterval num_bases (s + schedInterval num_bases s) ∧
    GroupInv num_bases (s + schedInterval num_bases s) := by
  obtain ⟨h5, h10, h50, h100⟩ := h
  rcases schedInterval_cases num_bases s with
    ⟨hiv, hc⟩ | ⟨hiv, hc⟩ | ⟨hiv, hc⟩ | ⟨hiv, hc⟩ | ⟨hiv, hc⟩ <;>
    [ (have hmod := h100 hiv); (have hmod := h50 hiv); (have hmod := h10 hiv);
      (have hmod := h5 hiv); skip ] <;>
    clear h5 h10 h50 h100 <;>
    rw [hiv] <;>
    simp only [GroupInv, nextInterval, schedInterval] <;>
    split_ifs <;> omega

theorem groupInv_zero (num_bases : Nat) : GroupInv num_bases 0 := by
  unfold GroupInv schedInterval
  split_ifs <;> omega

theorem make_base_groups_go_eq_sched (num_bases : Nat) :
    ∀ fuel s iv, iv = schedInterval num_bases s → GroupInv num_bases s →
      make_base_groups_go num_bases fuel s iv = sched_groups_go num_bases fuel s := by
  intro fuel
  induction fuel with
  | zero => intro s iv _ _; rfl
  | succ n ih =>
    intro s iv hiv hinv
    unfold make_base_groups_go sched_groups_go
    by_cases h : s < num_bases
    · simp only [if_pos h]
      subst hiv
      obtain ⟨hnext, hinv2⟩ := groupInv_step num_bases s hinv
      rw [ih _ _ hnext hinv2]
    · simp only [if_neg h]

/-- `make_base_groups` coincides with the reference schedule loop. -/
theorem make_base_groups_eq_sched (num_bases : Nat) :
    make_base_groups num_bases = sched_groups_go num_bases (num_bases + 1) 0 := by
  unfold make_base_groups
  apply make_base_groups_go_eq_sched
  · unfold schedInterval; split_ifs <;> omega
  · exact groupInv_zero num_bases

theorem sched_groups_go_mem (num_bases : Nat) :
    ∀ fuel s g, g ∈ sched_groups_go num_bases fuel s →
      s ≤ g.start ∧ g.start < num_bases ∧ g.start ≤ g.end_ ∧ g.end_ ≤ num_bases ∧
      g.end_ = min (g.start + schedInterval num_bases g.start - 1) num_bases := by
  intro fuel
  induction fuel with
  | zero => intro s g hg; simp [sched_groups_go] at hg
  | succ n ih =>
    intro s g hg
    unfold sched_groups_go at hg
    by_cases h : s < num_bases
    · simp only [if_pos h, List.mem_cons] at hg
      rcases hg with hg | hg
      · subst hg
        refine ⟨le_refl _, h, ?_, ?_, ?_⟩ <;>
          simp only [] <;>
          (have hp := schedInterval_pos num_bases s; split_ifs <;> omega)
      · have := ih _ g hg
        have hpos := schedInterval_pos num_bases s
        exact ⟨by omega, this.2⟩
    · simp [if_neg h] at hg

/-- C3 counterexample: with `num_bases = 76` the group starting at position 49
has width 5, not the width 10 the claim's unconditional schedule demands
(the width-10 stage additionally requires `num_bases > 200`), and the final
emitted group is `[74, 76]`, whose end lies outside the valid position range
`[0, 75]` because the source clamps `end_base` to `num_bases` instead of
`num_bases - 1`. -/
theorem make_base_groups_claim_counterexample :
    (⟨49, 53⟩ : BaseGroup) ∈ make_base_groups 76 ∧ 53 + 1 - 49 ≠ 10 ∧
    (⟨74, 76⟩ : BaseGroup) ∈ make_base_groups 76 ∧ ¬(76 ≤ 76 - 1) := by
  decide

/-- C3 (amended): for every `num_bases`, `make_base_groups` produces exactly
the consecutive groups of the reference schedule loop `sched_groups_go`, whose
widths follow the spec's schedule only conditionally: width 5 from position 9
only when `num_bases > 75`, width 10 from 49 only when `num_bases > 200`,
width 50 from 99 only when `num_bases > 300`, width 100 from 499 only when
`num_bases > 1000`, and width 500 never (the source's width-500 stage is
unreachable).  Every group starts inside `[0, num_bases - 1]` and has
`end = min (start + width - 1) num_bases`, so the final group may end at
`num_bases`, one past the last valid position. -/
theorem make_base_groups_schedule (num_bases : Nat) :
    make_base_groups num_bases = sched_groups_go num_bases (num_bases + 1) 0 ∧
    ∀ g, g ∈ make_base_groups num_bases →
      g.start < num_bases ∧ g.start ≤ g.end_ ∧ g.end_ ≤ num_bases ∧
      g.end_ = min (g.start + schedInterval num_bases g.start - 1) num_bases := by
  refine ⟨make_base_groups_eq_sched num_bases, fun g hg => ?_⟩
  rw [make_base_groups_eq_sched num_bases] at hg
  have h := sched_groups_go_mem num_bases (num_bases + 1) 0 g hg
  exact ⟨h.2.1, h.2.2.1, h.2.2.2.1, h.2.2.2.2⟩

/-- Witness for the amended C3 theorem at the concrete input
`num_bases = 76`, group `[9, 13]`. -/
theorem make_base_groups_schedule_witness :
    9 < 76 ∧ 9 ≤ 13 ∧ 13 ≤ 76 ∧
    (13 : Nat) = min (9 + schedInterval 76 9 - 1) 76 :=
  (make_base_groups_schedule 76).2 ⟨9, 13⟩ (by decide)

/-! ## Duplication extrapolation (Module.cpp, get_corrected_count, lines 90-131) -/

/-- `size_t` subtraction: `a - b` reduced modulo `2^64`, for operand values
below `2^64`.  The source computes `num_reads - num_obs` and
`(num_reads - i) - dup_level` on `size_t`. -/
def usub (a b : Nat) : Nat := (2 ^ 64 + a - b) % 2 ^ 64

/-- The `p_not_seeing` product loop of `get_corrected_count` (Module.cpp
lines 118-126): `fuel` counts the remaining iterations (initially
`count_at_limit`), `i` is the loop counter, `p` the running product; the loop
short-circuits to 0 as soon as the product drops below `limit`. -/
def p_not_seeing_loop (num_reads dup_level : Nat) (limit : ℚ) :
    Nat → Nat → ℚ → ℚ
  | 0, _, p => p
  | fuel + 1, i, p =>
    let p2 := p * ((usub (usub num_reads i) dup_level : ℚ) / (usub num_reads i : ℚ))
    if p2 < limit then 0
    else p_not_seeing_loop num_reads dup_level limit fuel (i + 1) p2

/-- `get_corrected_count` (Module.cpp lines 90-131): FastQC's extrapolation of
a frequency-class count `num_obs` to the full file size.  The `double`
arithmetic of the source is modelled exactly over `ℚ`. -/
def get_corrected_count (count_at_limit num_reads dup_level num_obs : Nat) : ℚ :=
  if count_at_limit = num_reads then (num_obs : ℚ)
  else if usub num_reads num_obs < count_at_limit then (num_obs : ℚ)
  else
    let limit_of_caring : ℚ := 1 - (num_obs : ℚ) / ((num_obs : ℚ) + 1 / 100)
    let p := p_not_seeing_loop num_reads dup_level limit_of_caring count_at_limit 0 1
    (num_obs : ℚ) / (1 - p)

/-- C7: `get_corrected_count` applies no correction on its two early-exit
paths: whenever `count_at_limit = num_reads`, and whenever
`num_reads - num_obs < count_at_limit` (stated over the mathematical
subtraction, for arguments in the `size_t` range with `num_obs ≤ num_reads`,
where it agrees with the source's `size_t` subtraction), the raw observed
count `num_obs` is returned exactly. -/
theorem get_corrected_count_no_correction
    (count_at_limit num_reads dup_level num_obs : Nat) :
    (count_at_limit = num_reads →
      get_corrected_count count_at_limit num_reads dup_level num_obs = (num_obs : ℚ)) ∧
    (num_obs ≤ num_reads → num_reads < 2 ^ 64 →
      num_reads - num_obs < count_at_limit →
      get_corrected_count count_at_limit num_reads dup_level num_obs = (num_obs : ℚ)) := by
  constructor
  · intro h
    simp [get_corrected_count, h]
  · intro hle hsz hlt
    have husub : usub num_reads num_obs = num_reads - num_obs := by
      unfold usub
      have h1 : 2 ^ 64 + num_reads - num_obs = 2 ^ 64 + (num_reads - num_obs) := by omega
      rw [h1, Nat.add_mod_left]
      exact Nat.mod_eq_of_lt (by omega)
    by_cases h : count_at_limit = num_reads
    · simp [get_corrected_count, h]
    · simp [get_corrected_count, h, husub, hlt]

/-- Witness for C7: both early-exit paths evaluated at concrete inputs. -/
theorem get_corrected_count_no_correction_witness :
    get_corrected_count 5 5 2 3 = (3 : ℚ) ∧
    get_corrected_count 2 10 1 9 = (9 : ℚ) :=
  ⟨(get_corrected_count_no_correction 5 5 2 3).1 rfl,
   (get_corrected_count_no_correction 2 10 1 9).2 (by norm_num) (by norm_num) (by norm_num)⟩

/-! ## GC-content deviation (Module.cpp, sum_deviation_from_normal, lines 135-230)

The GC histogram `gc_count` (101 `double` bins) is modelled as `gc : ℕ → ℚ`,
only evaluated at indices `0..100`. -/

/-- `Σ_{i < n} f i`, accumulated left to right as the source loops do. -/
def sumRangeQ (f : ℕ → ℚ) : Nat → ℚ
  | 0 => 0
  | n + 1 => sumRangeQ f n + f n

/-- `total_count` of `sum_deviation_from_normal` (lines 141-150). -/
def gc_total (gc : ℕ → ℚ) : ℚ := sumRangeQ gc 101

/-- The `first_mode`/`mode_count` scan of lines 146-155: after scanning bins
`0..n-1`, the first bin holding the strictly largest count seen so far
(initial `mode_count` is 0). -/
def modeScan (gc : ℕ → ℚ) : Nat → Nat × ℚ
  | 0 => (0, 0)
  | n + 1 =>
    let p := modeScan gc n
    if gc n > p.2 then (n, gc n) else p

/-- `first_mode` after the full scan of the 101 bins. -/
def first_mode (gc : ℕ → ℚ) : Nat := (modeScan gc 101).1

/-- Accumulator of the near-modal expansion loops: the running sum of bin
indices (`mode` in the source), the number of bins counted
(`mode_duplicates`), and the `fell_off` flag of the loop. -/
structure ModeAcc where
  modeSum : ℚ
  dups : Nat
  fellOff : Bool

/-- Upward expansion (lines 163-176): scan `i, i+1, ...` for `fuel` steps
(the source runs `i` up to bin 100, so `fuel = 101 - first_mode`), accumulating
`mode += i` into `s` and `mode_duplicates++` into `d` while the bin count stays
above the threshold; stopping early clears `fell_off_top`. -/
def upScan (gc : ℕ → ℚ) (thresh : ℚ) : Nat → Nat → ℚ → Nat → ModeAcc
  | 0, _, s, d => ⟨s, d, true⟩
  | fuel + 1, i, s, d =>
    if gc i > thresh then upScan gc thresh fuel (i + 1) (s + i) (d + 1)
    else ⟨s, d, false⟩

/-- Downward expansion (lines 178-189): scan `k-1, k-2, ..., 0`, accumulating
like `upScan` (the source starts at `first_mode - 1`; with `first_mode = 0`
the loop body never runs and `fell_off_bottom` stays true). -/
def downScan (gc : ℕ → ℚ) (thresh : ℚ) : Nat → ℚ → Nat → ModeAcc
  | 0, s, d => ⟨s, d, true⟩
  | k + 1, s, d =>
    if gc k > thresh then downScan gc thresh k (s + k) (d + 1)
    else ⟨s, d, false⟩

/-- The centroid `mode` used for the Gaussian fit (lines 157-198): the average
of the near-modal bin indices (`mode` and `mode_duplicates` accumulate across
the upward scan and then the downward scan), with fallback to the raw mode
when either expansion reached a histogram edge.  The threshold is
`gc[first_mode] - gc[first_mode]/10`. -/
def gc_mode (gc : ℕ → ℚ) : ℚ :=
  let fm := first_mode gc
  let thresh := gc fm - gc fm / 10
  let up := upScan gc thresh (101 - fm) fm 0 0
  let down := downScan gc thresh fm up.modeSum up.dups
  if down.fellOff || up.fellOff then (fm : ℚ)
  else down.modeSum / (down.dups : ℚ)

/-- The squared standard deviation computed by lines 200-207 before the
`sqrt`: the weighted sum of squared deviations from the centroid, divided by
`total_count - 1`. -/
def gc_stdev_sq (gc : ℕ → ℚ) : ℚ :=
  sumRangeQ (fun i => ((i : ℚ) - gc_mode gc) * ((i : ℚ) - gc_mode gc) * gc i) 101 /
    (gc_total gc - 1)

/-- The squared standard deviation the spec's sentence describes (named from
the spec, for comparison with the source's `gc_stdev_sq`): the same weighted
sum of squared deviations, but divided by the total count `N` rather than
`N - 1` (population variance). -/
def spec_gc_population_variance (gc : ℕ → ℚ) : ℚ :=
  sumRangeQ (fun i => ((i : ℚ) - gc_mode gc) * ((i : ℚ) - gc_mode gc) * gc i) 101 /
    gc_total gc

/-- A concrete GC histogram: 2 reads in bin 50, 2 reads in bin 60. -/
def gcHistEx : ℕ → ℚ := fun i => if i = 50 ∨ i = 60 then 2 else 0

set_option maxRecDepth 8000 in
theorem gcHistEx_total : gc_total gcHistEx = 4 := by
  norm_num [gc_total, sumRangeQ, gcHistEx]

set_option maxRecDepth 8000 in
theorem gcHistEx_first_mode : first_mode gcHistEx = 50 := by
  norm_num [first_mode, modeScan, gcHistEx]

theorem gcHistEx_mode : gc_mode gcHistEx = 50 := by
  simp only [gc_mode, gcHistEx_first_mode]
  norm_num [upScan, downScan, gcHistEx]

set_option maxRecDepth 8000 in
theorem gcHistEx_sqsum :
    sumRangeQ (fun i => ((i : ℚ) - gc_mode gcHistEx) * ((i : ℚ) - gc_mode gcHistEx) *
      gcHistEx i) 101 = 200 := by
  simp only [gcHistEx_mode]
  norm_num [sumRangeQ, gcHistEx]

theorem gcHistEx_stdev_sq : gc_stdev_sq gcHistEx = 200 / 3 := by
  unfold gc_stdev_sq
  rw [gcHistEx_sqsum, gcHistEx_total]
  norm_num

theorem gcHistEx_population_variance : spec_gc_population_variance gcHistEx = 50 := by
  unfold spec_gc_population_variance
  rw [gcHistEx_sqsum, gcHistEx_total]
  norm_num

/-- C4 counterexample: on the histogram with 2 reads at GC bin 50 and 2 at
bin 60 the source divides the weighted sum of squared deviations by
`total_count - 1 = 3` (Module.cpp line 206), giving standard deviation
`√(200/3)`, while the claimed population standard deviation is
`√(200/4) = √50`; the two differ. -/
theorem gc_stdev_claim_counterexample :
    Real.sqrt ((gc_stdev_sq gcHistEx : ℚ) : ℝ) ≠
      Real.sqrt ((spec_gc_population_variance gcHistEx : ℚ) : ℝ) := by
  rw [gcHistEx_stdev_sq, gcHistEx_population_variance]
  intro h
  have h2 : ((200 / 3 : ℚ) : ℝ) = ((50 : ℚ) : ℝ) :=
    (Real.sqrt_inj (by norm_num) (by norm_num)).mp h
  norm_num at h2

/-- C4 (amended): the standard deviation of the fitted Gaussian is the square
root of the weighted sum of squared deviations around the centroid divided by
`total_count - 1` (a Bessel-style divisor), i.e. its square equals the
population variance described by the spec inflated by `N / (N - 1)`. -/
theorem gc_stdev_sq_amended (gc : ℕ → ℚ)
    (h0 : gc_total gc ≠ 0) (h1 : gc_total gc ≠ 1) :
    gc_stdev_sq gc = spec_gc_population_variance gc * (gc_total gc / (gc_total gc - 1)) := by
  unfold gc_stdev_sq spec_gc_population_variance
  have h2 : gc_total gc - 1 ≠ 0 := fun hc => h1 (by linarith [sub_eq_zero.mp hc])
  field_simp

/-- Witness for the amended C4 theorem at the concrete histogram `gcHistEx`
(total count 4). -/
theorem gc_stdev_sq_amended_witness :
    gc_stdev_sq gcHistEx =
      spec_gc_population_variance gcHistEx * (gc_total gcHistEx / (gc_total gcHistEx - 1)) :=
  gc_stdev_sq_amended gcHistEx
    (by rw [gcHistEx_total]; norm_num)
    (by rw [gcHistEx_total]; norm_num)

/-! ## K-mer enrichment (Module.cpp, ModuleKmerContent::summarize_module, lines 1589-1650) -/

/-- Modelled from the spec: `FastqStats::kNumBases`, the number of positions
stored densely, lives in a header that is not part of the sources at hand; the
spec's adapter-module discussion and the source comment "do not bother with
500 bases" (Module.cpp line 1466) fix it at 500. -/
def kNumBases : Nat := 500

/-- The slice of the aggregate snapshot consumed by the k-mer module.
`kmer_count` is indexed in the source by `(i << kBitShiftKmer) | kmer`; the
packed flat array is modelled as a function of `(position, kmer)`. -/
structure KmerStats where
  kmer_size : Nat
  max_read_length : Nat
  kmer_count : Nat → Nat → Nat
  pos_kmer_count : Nat → Nat

/-- `num_kmers = 1 << (2 * kmer_size)` (line 1594). -/
def num_kmers (s : KmerStats) : Nat := 2 ^ (2 * s.kmer_size)

/-- `num_kmer_bases` (lines 1595-1599). -/
def num_kmer_bases (s : KmerStats) : Nat :=
  if s.max_read_length < kNumBases then s.max_read_length else kNumBases

/-- `total_kmer_counts[kmer]`: the k-mer's occurrences summed over positions
`kmer_size - 1 ≤ i < num_kmer_bases` (lines 1616-1622). -/
def total_kmer_counts (s : KmerStats) (kmer : Nat) : Nat :=
  ((List.range' (s.kmer_size - 1) (num_kmer_bases s - (s.kmer_size - 1))).map
    (fun i => s.kmer_count i kmer)).sum

/-- `num_seen_kmers`: the number of k-mers whose total count is positive
(line 1623). -/
def num_seen_kmers (s : KmerStats) : Nat :=
  ((List.range (num_kmers s)).filter (fun kmer => 0 < total_kmer_counts s kmer)).length

/-- The expected count the source uses for every k-mer at position `i`:
`pos_kmer_count[i] / dividend` with `dividend = num_seen_kmers`
(lines 1626-1632).  It depends only on the position, not on the k-mer. -/
def expected_count (s : KmerStats) (i : Nat) : ℚ :=
  (s.pos_kmer_count i : ℚ) / (num_seen_kmers s : ℚ)

/-- `obs_exp_ratio = observed_count / expected_count` (line 1633). -/
def obs_exp_ratio (s : KmerStats) (i kmer : Nat) : ℚ :=
  (s.kmer_count i kmer : ℚ) / expected_count s i

/-- The expected count C2 claims the source uses (named from the spec's
words, for comparison with `expected_count`): the k-mer's total occurrences
across all positions divided by `num_seen_kmers`. -/
def spec_expected_count (s : KmerStats) (kmer : Nat) : ℚ :=
  (total_kmer_counts s kmer : ℚ) / (num_seen_kmers s : ℚ)

/-- A concrete k-mer snapshot: `kmer_size = 1`, reads of length 2; k-mer 0
occurs 2 and 3 times at positions 0 and 1, k-mer 1 occurs 8 and 17 times,
k-mers 2 and 3 never; the per-position totals are 10 and 20. -/
def kmerStatsEx : KmerStats where
  kmer_size := 1
  max_read_length := 2
  kmer_count := fun i k =>
    if k = 0 then (if i = 0 then 2 else if i = 1 then 3 else 0)
    else if k = 1 then (if i = 0 then 8 else if i = 1 then 17 else 0)
    else 0
  pos_kmer_count := fun i => if i = 0 then 10 else if i = 1 then 20 else 0

/-- C2 counterexample: on `kmerStatsEx` (where `num_seen_kmers = 2`), the
expected count the source divides by for k-mer 0 at position 0 is
`pos_kmer_count[0] / num_seen_kmers = 10 / 2 = 5`, not the claim's
`total_kmer_counts[0] / num_seen_kmers = 5 / 2`. -/
theorem expected_count_claim_counterexample :
    expected_count kmerStatsEx 0 ≠ spec_expected_count kmerStatsEx 0 := by
  norm_num [expected_count, spec_expected_count, num_seen_kmers, total_kmer_counts,
    num_kmers, num_kmer_bases, kNumBases, kmerStatsEx, List.range', List.range,
    List.range.loop, List.filter]

/-- C2 (amended): the expected count used to form the observed/expected ratio
for any k-mer at position `i` is the position's total k-mer count
`pos_kmer_count[i]` divided by `num_seen_kmers` — the same value for every
k-mer at that position — and consequently the ratio satisfies
`ratio · pos_kmer_count[i] = observed · num_seen_kmers`. -/
theorem expected_count_amended (s : KmerStats) (i kmer : Nat)
    (hseen : 0 < num_seen_kmers s) (hpos : 0 < s.pos_kmer_count i) :
    expected_count s i * (num_seen_kmers s : ℚ) = (s.pos_kmer_count i : ℚ) ∧
    obs_exp_ratio s i kmer * (s.pos_kmer_count i : ℚ) =
      (s.kmer_count i kmer : ℚ) * (num_seen_kmers s : ℚ) := by
  have h1 : ((num_seen_kmers s : ℚ)) ≠ 0 := by positivity
  have h2 : ((s.pos_kmer_count i : ℚ)) ≠ 0 := by positivity
  unfold obs_exp_ratio expected_count
  constructor
  · field_simp
  · field_simp

/-- Witness for the amended C2 theorem on `kmerStatsEx` at position 0,
k-mer 0. -/
theorem expected_count_amended_witness :
    expected_count kmerStatsEx 0 * (num_seen_kmers kmerStatsEx : ℚ) =
      (kmerStatsEx.pos_kmer_count 0 : ℚ) ∧
    obs_exp_ratio kmerStatsEx 0 0 * (kmerStatsEx.pos_kmer_count 0 : ℚ) =
      (kmerStatsEx.kmer_count 0 0 : ℚ) * (num_seen_kmers kmerStatsEx : ℚ) :=
  expected_count_amended kmerStatsEx 0 0 (by decide) (by decide)

/-! ## Contaminant list loading and matching
(FalcoConfig::read_contaminants_file and get_matching_contaminant in
src/unnamed/part_000, lines 251-311; the identical matcher also appears as
ModuleOverrepresentedSequences::get_matching_contaminant, Module.cpp lines
1348-1374).  Strings are modelled as `List Char`. -/

/-- One `iss >> token` extraction step: `splitWs` cuts a line into its maximal
runs of non-whitespace characters, as the `istringstream` loop of the source
does (`acc` holds the current token, reversed). -/
def splitWsAux : List Char → List Char → List (List Char)
  | [], acc => if acc = [] then [] else [acc.reverse]
  | c :: rest, acc =>
    if c = ' ' ∨ c = '\t' then
      if acc = [] then splitWsAux rest []
      else acc.reverse :: splitWsAux rest []
    else splitWsAux rest (c :: acc)

/-- Whitespace tokenization of one line. -/
def splitWs (line : List Char) : List (List Char) := splitWsAux line []

/-- The sentinel returned when no contaminant matches: the string "No Hit". -/
def noHit : List Char := ['N', 'o', ' ', 'H', 'i', 't']

/-- `FalcoConfig::read_contaminants_file` (part_000 lines 251-281), applied to
the list of lines of the contaminant file.  A line is skipped when its first
character is `#` (an empty C++ `std::string` yields `line[0] == '\0'`, which
is not `#`, so empty lines fall through to tokenization and are then dropped
for lack of tokens).  For a line with at least two tokens the source appends
the pair `(contaminant_name, contaminant_seq)`, where `contaminant_name` is
every token but the last, each followed by one space, and `contaminant_seq`
is the local variable declared empty at line 265 and never assigned — the
last token is bound at line 275 to a new, differently spelt variable
(`contaminent_seq`) that is never used — so the stored sequence is always
empty. -/
def read_contaminants_file (lines : List (List Char)) : List (List Char × List Char) :=
  lines.foldl
    (fun contaminants line =>
      if line.head? = some '#' then contaminants
      else
        let line_by_space := splitWs line
        if 1 < line_by_space.length then
          contaminants ++
            [((line_by_space.dropLast).foldl (fun n t => n ++ t ++ [' ']) [],
              ([] : List Char))]
        else contaminants)
    []

/-- C1-style evaluation for C5: feeding the single contaminant line
`"X ACGT"` to `read_contaminants_file` stores the pair `("X ", "")` — the
full sequence `"ACGT"` given by the last token is dropped, contradicting the
claim (and the source's own comment that "the last instance is the biological
sequence"). -/
theorem read_contaminants_file_drops_sequence :
    read_contaminants_file [['X', ' ', 'A', 'C', 'G', 'T']] = [(['X', ' '], [])] ∧
    (['X', ' '], ['A', 'C', 'G', 'T']) ∉
      read_contaminants_file [['X', ' ', 'A', 'C', 'G', 'T']] := by
  decide

/-- The matcher loop of `get_matching_contaminant` (part_000 lines 286-311 and
Module.cpp lines 1348-1374): `best`/`ret` are the running best contaminant
length and name; a contaminant longer than (or as long as) the candidate that
contains it causes an immediate return. -/
def get_matching_contaminant_go (seq : List Char) :
    List (List Char × List Char) → Nat → List Char → List Char
  | [], best, ret => if 0 < best then ret else noHit
  | v :: rest, best, ret =>
    if v.2.length < seq.length then
      if v.2 <:+: seq then
        if best < v.2.length then get_matching_contaminant_go seq rest v.2.length v.1
        else get_matching_contaminant_go seq rest best ret
      else get_matching_contaminant_go seq rest best ret
    else
      if seq <:+: v.2 then v.1
      else get_matching_contaminant_go seq rest best ret

/-- `get_matching_contaminant(seq)`: the name of the best-matching
contaminant, or "No Hit". -/
def get_matching_contaminant (contaminants : List (List Char × List Char))
    (seq : List Char) : List Char :=
  get_matching_contaminant_go seq contaminants 0 []

theorem get_matching_contaminant_go_no_hit (seq : List Char) :
    ∀ (cs : List (List Char × List Char)) (best : Nat) (ret : List Char),
      (∀ p ∈ cs, ¬(p.2 <:+: seq) ∧ ¬(seq <:+: p.2)) →
      get_matching_contaminant_go seq cs best ret = if 0 < best then ret else noHit := by
  intro cs
  induction cs with
  | nil => intro best ret _; rfl
  | cons v rest ih =>
    intro best ret h
    have hv := h v (List.mem_cons_self v rest)
    have hrest : ∀ p ∈ rest, ¬(p.2 <:+: seq) ∧ ¬(seq <:+: p.2) :=
      fun p hp => h p (List.mem_cons_of_mem v hp)
    unfold get_matching_contaminant_go
    by_cases hlen : v.2.length < seq.length
    · rw [if_pos hlen, if_neg hv.1]
      exact ih best ret hrest
    · rw [if_neg hlen, if_neg hv.2]
      exact ih best ret hrest

/-- C6: contaminant matching behaves as claimed — the candidate `"ACGTACGT"`
against the list `[("X", "ACGT")]` matches `"X"` (contaminant contained in
the candidate); the candidate `"ACGT"` against `[("Y", "ACGTACGT")]` matches
`"Y"` (candidate contained in the contaminant, early exit); and whenever no
contaminant is contained in the candidate and the candidate is contained in
no contaminant, the sentinel "No Hit" is returned. -/
theorem get_matching_contaminant_spec :
    get_matching_contaminant [(['X'], ['A', 'C', 'G', 'T'])]
        ['A', 'C', 'G', 'T', 'A', 'C', 'G', 'T'] = ['X'] ∧
    get_matching_contaminant [(['Y'], ['A', 'C', 'G', 'T', 'A', 'C', 'G', 'T'])]
        ['A', 'C', 'G', 'T'] = ['Y'] ∧
    ∀ (contaminants : List (List Char × List Char)) (seq : List Char),
      (∀ p ∈ contaminants, ¬(p.2 <:+: seq) ∧ ¬(seq <:+: p.2)) →
      get_matching_contaminant contaminants seq = noHit := by
  refine ⟨by decide, by decide, fun contaminants seq h => ?_⟩
  unfold get_matching_contaminant
  rw [get_matching_contaminant_go_no_hit seq contaminants 0 [] h]
  rfl

/-- Witness for C6's universally quantified "No Hit" clause at a concrete
input: candidate `"AC"` against the single contaminant `("Z", "TT")`. -/
theorem get_matching_contaminant_spec_witness :
    get_matching_contaminant [(['Z'], ['T', 'T'])] ['A', 'C'] = noHit :=
  get_matching_contaminant_spec.2.2 [(['Z'], ['T', 'T'])] ['A', 'C'] (by decide)

/-! ## Per-base quality quantiles
(Module.cpp, ModulePerBaseSequenceQuality::summarize_module, lines 408-517) -/

/-- Modelled from the spec: `FastqStats::kNumQualityValues` lives in a header
that is not part of the sources at hand; the spec bounds integer quality
scores ("0-40+") and the source allocates the per-group quality histogram
with 128 slots (Module.cpp line 443), fixing the constant at 128. -/
def kNumQualityValues : Nat := 128

/-- The slice of the aggregate snapshot consumed by the per-base quality
module.  `position_quality_count` is indexed in the source by
`(i << kBitShiftQuality) | j`; the packed flat array (and its long-read
counterpart) is modelled as a function of `(position, quality)`. -/
structure QualityStats where
  max_read_length : Nat
  position_quality_count : Nat → Nat → Nat
  cumulative_read_length_freq : Nat → Nat

/-- The inner position loop of a single group iteration (lines 448-478): for
each position `i` of the group, the source *resets* `bases_in_group` to 0 and
the 128-slot histogram to all zeros (lines 451-454), then adds position `i`'s
quality counts and its base count.  The fold therefore leaves, at the end of
the group, only the contribution of the group's last position. -/
def group_hist_and_count (stats : QualityStats) (g : BaseGroup) : (Nat → Nat) × Nat :=
  (List.range' g.start (g.end_ + 1 - g.start)).foldl
    (fun _prev i =>
      (fun j => if j < kNumQualityValues then stats.position_quality_count i j else 0,
       stats.cumulative_read_length_freq i))
    (fun _ => 0, 0)

/-- A concrete snapshot: every position of 76-base reads carries 10 bases,
all with quality 30. -/
def qualityStatsEx : QualityStats where
  max_read_length := 76
  position_quality_count := fun i j => if j = 30 ∧ i < 76 then 10 else 0
  cumulative_read_length_freq := fun i => if i < 76 then 10 else 0

/-- C1 evaluation at the failing input: with `num_bases = 76` the per-base
quality module groups positions 9-13 together, yet the histogram and base
count it extracts quantiles from cover only position 13: the base count `N`
is 10, not the 50 bases the whole group holds, and the histogram entry at
quality 30 is 10, not the summed 50. -/
theorem per_base_quality_group_uses_last_position_only :
    (⟨9, 13⟩ : BaseGroup) ∈ make_base_groups 76 ∧
    (group_hist_and_count qualityStatsEx ⟨9, 13⟩).2 = 10 ∧
    ((List.range' 9 5).map qualityStatsEx.cumulative_read_length_freq).sum = 50 ∧
    (group_hist_and_count qualityStatsEx ⟨9, 13⟩).1 30 = 10 ∧
    ((List.range' 9 5).map (fun i => qualityStatsEx.position_quality_count i 30)).sum = 50 := by
  decide

/-- The running state of the quantile-extraction loop (lines 417-425 and
487-505): cumulative count and quality-weighted sum, plus the five quantile
registers (which the source declares outside the group loop, so their values
carry over between groups). -/
structure QuantState where
  counts : Nat
  cur_sum : Nat
  ldecile : Nat
  lquartile : Nat
  median : Nat
  uquartile : Nat
  udecile : Nat
deriving DecidableEq, Repr

/-- The quantile-extraction loop over quality values `j < n` (lines 490-505):
each quantile register is set to `j` when the cumulative count first crosses
the corresponding threshold. -/
def quant_scan (hist : Nat → Nat) (t10 t25 t50 t75 t90 : ℚ) (init : QuantState) :
    Nat → QuantState
  | 0 => init
  | n + 1 =>
    let s := quant_scan hist t10 t25 t50 t75 t90 init n
    let cur := hist n
    { counts := s.counts + cur
      cur_sum := s.cur_sum + cur * n
      ldecile := if (s.counts : ℚ) < t10 ∧ t10 ≤ ((s.counts + cur : Nat) : ℚ) then n else s.ldecile
      lquartile := if (s.counts : ℚ) < t25 ∧ t25 ≤ ((s.counts + cur : Nat) : ℚ) then n else s.lquartile
      median := if (s.counts : ℚ) < t50 ∧ t50 ≤ ((s.counts + cur : Nat) : ℚ) then n else s.median
      uquartile := if (s.counts : ℚ) < t75 ∧ t75 ≤ ((s.counts + cur : Nat) : ℚ) then n else s.uquartile
      udecile := if (s.counts : ℚ) < t90 ∧ t90 ≤ ((s.counts + cur : Nat) : ℚ) then n else s.udecile }

/-- One group iteration of `summarize_module`: build the group histogram and
base count, form the five thresholds `0.1·N, 0.25·N, 0.5·N, 0.75·N, 0.9·N`
(lines 479-483), reset `counts`/`cur_sum` (lines 487-488) and run the
quantile scan over the `kNumQualityValues` quality values, starting from the
quantile registers carried over from earlier groups. -/
def group_quantiles (stats : QualityStats) (g : BaseGroup) (carried : QuantState) :
    QuantState :=
  let hc := group_hist_and_count stats g
  quant_scan hc.1
    ((1 / 10 : ℚ) * hc.2) ((25 / 100 : ℚ) * hc.2) ((5 / 10 : ℚ) * hc.2)
    ((75 / 100 : ℚ) * hc.2) ((9 / 10 : ℚ) * hc.2)
    { carried with counts := 0, cur_sum := 0 }
    kNumQualityValues

/-- `Σ_{i < n} f i` over `Nat`, the cumulative histogram count. -/
def sumRangeNat (f : Nat → Nat) : Nat → Nat
  | 0 => 0
  | n + 1 => sumRangeNat f n + f n

theorem sumRangeNat_mono (f : Nat → Nat) {m n : Nat} (h : m ≤ n) :
    sumRangeNat f m ≤ sumRangeNat f n := by
  induction n, h using Nat.le_induction with
  | base => exact le_refl _
  | succ k hmk ih =>
    have : sumRangeNat f (k + 1) = sumRangeNat f k + f k := rfl
    omega

/-- The crossing register for one threshold, in closed recursive form. -/
def cross_fold (hist : Nat → Nat) (t : ℚ) (c0 : Nat) : Nat → Nat
  | 0 => c0
  | n + 1 =>
    if (sumRangeNat hist n : ℚ) < t ∧ t ≤ (sumRangeNat hist (n + 1) : ℚ) then n
    else cross_fold hist t c0 n

theorem quant_scan_counts (hist : Nat → Nat) (t10 t25 t50 t75 t90 : ℚ)
    (init : QuantState) (n : Nat) :
    (quant_scan hist t10 t25 t50 t75 t90 init n).counts = init.counts + sumRangeNat hist n := by
  induction n with
  | zero => simp [quant_scan, sumRangeNat]
  | succ k ih => simp [quant_scan, sumRangeNat, ih]; omega

theorem quant_scan_components (hist : Nat → Nat) (t10 t25 t50 t75 t90 : ℚ)
    (init : QuantState) (h0 : init.counts = 0) (n : Nat) :
    (quant_scan hist t10 t25 t50 t75 t90 init n).ldecile = cross_fold hist t10 init.ldecile n ∧
    (quant_scan hist t10 t25 t50 t75 t90 init n).lquartile = cross_fold hist t25 init.lquartile n ∧
    (quant_scan hist t10 t25 t50 t75 t90 init n).median = cross_fold hist t50 init.median n ∧
    (quant_scan hist t10 t25 t50 t75 t90 init n).uquartile = cross_fold hist t75 init.uquartile n ∧
    (quant_scan hist t10 t25 t50 t75 t90 init n).udecile = cross_fold hist t90 init.udecile n := by
  induction n with
  | zero => simp [quant_scan, cross_fold]
  | succ k ih =>
    have hc := quant_scan_counts hist t10 t25 t50 t75 t90 init k
    rw [h0, Nat.zero_add] at hc
    obtain ⟨i1, i2, i3, i4, i5⟩ := ih
    refine ⟨?_, ?_, ?_, ?_, ?_⟩ <;>
      simp only [quant_scan, cross_fold, hc, i1, i2, i3, i4, i5, sumRangeNat]

/-- The crossing register after a full scan that reaches the threshold is the
first index whose cumulative count reaches it. -/
theorem cross_fold_eq_find (hist : Nat → Nat) (t : ℚ) (c0 : Nat)
    (ht : 0 < t) (hex : ∃ j, t ≤ (sumRangeNat hist (j + 1) : ℚ)) :
    ∀ n, cross_fold hist t c0 n =
      if t ≤ (sumRangeNat hist n : ℚ) then Nat.find hex else c0 := by
  intro n
  induction n with
  | zero =>
    rw [cross_fold, if_neg]
    simp only [sumRangeNat, Nat.cast_zero]
    exact fun hcon => absurd (lt_of_lt_of_le ht hcon) (lt_irrefl 0)
  | succ k ih =>
    unfold cross_fold
    by_cases h1 : t ≤ (sumRangeNat hist k : ℚ)
    · have h2 : t ≤ (sumRangeNat hist (k + 1) : ℚ) :=
        le_trans h1 (by exact_mod_cast sumRangeNat_mono hist (Nat.le_succ k))
      rw [if_neg (by push_neg; exact fun hcon => absurd hcon (not_lt.mpr h1)), ih,
        if_pos h1, if_pos h2]
    · by_cases h2 : t ≤ (sumRangeNat hist (k + 1) : ℚ)
      · rw [if_pos ⟨lt_of_not_le h1, h2⟩, if_pos h2]
        refine (Nat.find_eq_iff hex).mpr ⟨h2, fun m hm hcon => ?_⟩ |>.symm
        have : (sumRangeNat hist (m + 1) : ℚ) ≤ (sumRangeNat hist k : ℚ) := by
          exact_mod_cast sumRangeNat_mono hist (by omega)
        exact h1 (le_trans hcon this)
      · rw [if_neg (fun hcon => h2 hcon.2), ih, if_neg h1, if_neg h2]

/-- The five quantile registers are in non-decreasing order
(10th percentile ≤ lower quartile ≤ median ≤ upper quartile ≤ 90th
percentile). -/
def Monotone5 (q : QuantState) : Prop :=
  q.ldecile ≤ q.lquartile ∧ q.lquartile ≤ q.median ∧
  q.median ≤ q.uquartile ∧ q.uquartile ≤ q.udecile

set_option maxHeartbeats 1000000 in
/-- A group whose extracted base count `N` is positive and whose extracted
histogram sums to `N` gets monotone quantiles, whatever registers were
carried in: each register becomes the first index whose cumulative count
reaches its threshold, and the thresholds are ordered. -/
theorem group_quantiles_monotone_of_pos (stats : QualityStats) (g : BaseGroup)
    (carried : QuantState)
    (hN : 0 < (group_hist_and_count stats g).2)
    (hsum : sumRangeNat (group_hist_and_count stats g).1 kNumQualityValues =
      (group_hist_and_count stats g).2) :
    Monotone5 (group_quantiles stats g carried) := by
  unfold Monotone5
  set hist := (group_hist_and_count stats g).1 with hhist
  set N := (group_hist_and_count stats g).2 with hNdef
  have hNQ : (0 : ℚ) < (N : ℚ) := by exact_mod_cast hN
  set t10 : ℚ := (1 / 10 : ℚ) * N with ht10
  set t25 : ℚ := (25 / 100 : ℚ) * N with ht25
  set t50 : ℚ := (5 / 10 : ℚ) * N with ht50
  set t75 : ℚ := (75 / 100 : ℚ) * N with ht75
  set t90 : ℚ := (9 / 10 : ℚ) * N with ht90
  have hsumQ : (sumRangeNat hist kNumQualityValues : ℚ) = (N : ℚ) := by exact_mod_cast hsum
  have hex : ∀ t : ℚ, t ≤ (N : ℚ) →
      ∃ j, t ≤ (sumRangeNat hist (j + 1) : ℚ) := by
    intro t hle
    exact ⟨kNumQualityValues - 1, by
      have : kNumQualityValues - 1 + 1 = kNumQualityValues := by decide
      rw [this, hsumQ]; exact hle⟩
  have h10 := hex t10 (by rw [ht10]; nlinarith)
  have h25 := hex t25 (by rw [ht25]; nlinarith)
  have h50 := hex t50 (by rw [ht50]; nlinarith)
  have h75 := hex t75 (by rw [ht75]; nlinarith)
  have h90 := hex t90 (by rw [ht90]; nlinarith)
  have comps := quant_scan_components hist t10 t25 t50 t75 t90
    { carried with counts := 0, cur_sum := 0 } rfl kNumQualityValues
  have hmono : ∀ (t1 t2 : ℚ) (e1 : ∃ j, t1 ≤ (sumRangeNat hist (j + 1) : ℚ))
      (e2 : ∃ j, t2 ≤ (sumRangeNat hist (j + 1) : ℚ)), t1 ≤ t2 →
      Nat.find e1 ≤ Nat.find e2 := by
    intro t1 t2 e1 e2 hle
    exact Nat.find_min' e1 (le_trans hle (Nat.find_spec e2))
  have evalAt : ∀ (t : ℚ) (c0 : Nat) (ht : 0 < t)
      (e : ∃ j, t ≤ (sumRangeNat hist (j + 1) : ℚ)), t ≤ (N : ℚ) →
      cross_fold hist t c0 kNumQualityValues = Nat.find e := by
    intro t c0 ht e hle
    rw [cross_fold_eq_find hist t c0 ht e kNumQualityValues, if_pos (by rw [hsumQ]; exact hle)]
  have g10 : 0 < t10 := by rw [ht10]; positivity
  have g25 : 0 < t25 := by rw [ht25]; positivity
  have g50 : 0 < t50 := by rw [ht50]; positivity
  have g75 : 0 < t75 := by rw [ht75]; positivity
  have g90 : 0 < t90 := by rw [ht90]; positivity
  have hgq : group_quantiles stats g carried =
      quant_scan hist t10 t25 t50 t75 t90
        { carried with counts := 0, cur_sum := 0 } kNumQualityValues := rfl
  rw [hgq, comps.1, comps.2.1, comps.2.2.1, comps.2.2.2.1, comps.2.2.2.2,
    evalAt t10 _ g10 h10 (by rw [ht10]; nlinarith),
    evalAt t25 _ g25 h25 (by rw [ht25]; nlinarith),
    evalAt t50 _ g50 h50 (by rw [ht50]; nlinarith),
    evalAt t75 _ g75 h75 (by rw [ht75]; nlinarith),
    evalAt t90 _ g90 h90 (by rw [ht90]; nlinarith)]
  refine ⟨hmono _ _ _ _ ?_, hmono _ _ _ _ ?_, hmono _ _ _ _ ?_, hmono _ _ _ _ ?_⟩ <;>
    [rw [ht10, ht25]; rw [ht25, ht50]; rw [ht50, ht75]; rw [ht75, ht90]] <;> nlinarith

/-- A non-positive threshold never fires: the crossing condition demands a
cumulative count strictly below the threshold, and cumulative counts are
non-negative. -/
theorem cross_fold_nonpos (hist : Nat → Nat) (t : ℚ) (c0 : Nat) (ht : t ≤ 0) :
    ∀ n, cross_fold hist t c0 n = c0 := by
  intro n
  induction n with
  | zero => rfl
  | succ k ih =>
    unfold cross_fold
    rw [if_neg, ih]
    rintro ⟨h1, _⟩
    have h0 : (0 : ℚ) ≤ (sumRangeNat hist k : ℚ) := by positivity
    linarith

/-- A group whose extracted base count `N` is zero (as happens for the final
clamped group of `make_base_groups`, whose last position lies past the reads)
has all five thresholds equal to 0, so no register fires and the carried
registers pass through unchanged. -/
theorem group_quantiles_monotone_of_zero (stats : QualityStats) (g : BaseGroup)
    (carried : QuantState)
    (hN : (group_hist_and_count stats g).2 = 0)
    (hcar : Monotone5 carried) :
    Monotone5 (group_quantiles stats g carried) := by
  have comps := quant_scan_components (group_hist_and_count stats g).1
    ((1 / 10 : ℚ) * ((group_hist_and_count stats g).2 : ℚ))
    ((25 / 100 : ℚ) * ((group_hist_and_count stats g).2 : ℚ))
    ((5 / 10 : ℚ) * ((group_hist_and_count stats g).2 : ℚ))
    ((75 / 100 : ℚ) * ((group_hist_and_count stats g).2 : ℚ))
    ((9 / 10 : ℚ) * ((group_hist_and_count stats g).2 : ℚ))
    { carried with counts := 0, cur_sum := 0 } rfl kNumQualityValues
  have hz : ∀ p : ℚ, p * ((group_hist_and_count stats g).2 : ℚ) ≤ 0 := by
    intro p
    rw [hN]
    norm_num
  have hgq : group_quantiles stats g carried =
      quant_scan (group_hist_and_count stats g).1
        ((1 / 10 : ℚ) * ((group_hist_and_count stats g).2 : ℚ))
        ((25 / 100 : ℚ) * ((group_hist_and_count stats g).2 : ℚ))
        ((5 / 10 : ℚ) * ((group_hist_and_count stats g).2 : ℚ))
        ((75 / 100 : ℚ) * ((group_hist_and_count stats g).2 : ℚ))
        ((9 / 10 : ℚ) * ((group_hist_and_count stats g).2 : ℚ))
        { carried with counts := 0, cur_sum := 0 } kNumQualityValues := rfl
  unfold Monotone5
  rw [hgq, comps.1, comps.2.1, comps.2.2.1, comps.2.2.2.1, comps.2.2.2.2,
    cross_fold_nonpos _ _ _ (hz _) _, cross_fold_nonpos _ _ _ (hz _) _,
    cross_fold_nonpos _ _ _ (hz _) _, cross_fold_nonpos _ _ _ (hz _) _,
    cross_fold_nonpos _ _ _ (hz _) _]
  exact hcar

/-- One group step of the module preserves quantile monotonicity, given only
that the extracted histogram sums to the extracted count. -/
theorem group_quantiles_monotone_step (stats : QualityStats) (g : BaseGroup)
    (carried : QuantState)
    (hsum : sumRangeNat (group_hist_and_count stats g).1 kNumQualityValues =
      (group_hist_and_count stats g).2)
    (hcar : Monotone5 carried) :
    Monotone5 (group_quantiles stats g carried) := by
  rcases Nat.eq_zero_or_pos (group_hist_and_count stats g).2 with h0 | hpos
  · exact group_quantiles_monotone_of_zero stats g carried h0 hcar
  · exact group_quantiles_monotone_of_pos stats g carried hpos hsum

theorem sumRangeNat_congr (f g : Nat → Nat) (n : Nat) (h : ∀ i, i < n → f i = g i) :
    sumRangeNat f n = sumRangeNat g n := by
  induction n with
  | zero => rfl
  | succ k ih =>
    unfold sumRangeNat
    rw [ih (fun i hi => h i (by omega)), h k (by omega)]

theorem sumRangeNat_zero_fn (n : Nat) : sumRangeNat (fun _ => 0) n = 0 := by
  induction n with
  | zero => rfl
  | succ k ih => unfold sumRangeNat; omega

/-- A fold whose body ignores the accumulator returns the image of the last
element. -/
theorem foldl_discard {α : Type} (F : Nat → α) :
    ∀ (l : List Nat) (a : Nat) (init : α),
      List.foldl (fun _ i => F i) init (l ++ [a]) = F a := by
  intro l
  induction l with
  | nil => intro a init; rfl
  | cons b rest ih => intro a init; exact ih a (F b)

/-- For a group with `start ≤ end` the per-position resets leave exactly the
last position's histogram and base count. -/
theorem group_hist_and_count_last (stats : QualityStats) (g : BaseGroup)
    (h : g.start ≤ g.end_) :
    group_hist_and_count stats g =
      (fun j => if j < kNumQualityValues then stats.position_quality_count g.end_ j else 0,
       stats.cumulative_read_length_freq g.end_) := by
  have hlen : g.end_ + 1 - g.start = (g.end_ - g.start) + 1 := by omega
  have hlast : g.start + 1 * (g.end_ - g.start) = g.end_ := by omega
  unfold group_hist_and_count
  rw [hlen, List.range'_concat, hlast, foldl_discard]

/-- A group with `end < start` loops over no position and keeps the zero
initial state (such groups never arise from `make_base_groups`). -/
theorem group_hist_and_count_empty (stats : QualityStats) (g : BaseGroup)
    (h : g.end_ < g.start) :
    group_hist_and_count stats g = (fun _ => 0, 0) := by
  have hlen : g.end_ + 1 - g.start = 0 := by omega
  unfold group_hist_and_count
  rw [hlen]
  rfl

/-- Well-formedness of the aggregate snapshot: at every position, the quality
histogram entries sum to the position's base count — each base contributes
exactly one quality value, so every snapshot the accumulator produces
satisfies this. -/
def WellFormed (stats : QualityStats) : Prop :=
  ∀ i, sumRangeNat (stats.position_quality_count i) kNumQualityValues =
    stats.cumulative_read_length_freq i

/-- In a well-formed snapshot, the histogram the module extracts for any
group sums to the base count it extracts (both come from the group's last
position, or are both zero for a degenerate group). -/
theorem wellFormed_group_sum (stats : QualityStats) (hwf : WellFormed stats)
    (g : BaseGroup) :
    sumRangeNat (group_hist_and_count stats g).1 kNumQualityValues =
      (group_hist_and_count stats g).2 := by
  rcases Nat.lt_or_ge g.end_ g.start with h | h
  · rw [group_hist_and_count_empty stats g h]
    exact sumRangeNat_zero_fn kNumQualityValues
  · rw [group_hist_and_count_last stats g h]
    rw [sumRangeNat_congr _ (stats.position_quality_count g.end_) _
      (fun i hi => if_pos hi)]
    exact hwf g.end_

/-- The module's group loop (lines 446-516): the quantile registers computed
for each group are stored as that group's five values, and the registers
carry over into the next group's scan. -/
def group_quantiles_run (stats : QualityStats) :
    QuantState → List BaseGroup → List QuantState
  | _, [] => []
  | carried, g :: rest =>
    group_quantiles stats g carried ::
      group_quantiles_run stats (group_quantiles stats g carried) rest

/-- C10: for every well-formed snapshot, every list of position-groups, and
any starting registers that are themselves ordered — in particular the
module's run, which uses the groups of `make_base_groups` and starts from the
zero-initialized registers of lines 417-421 — every five-tuple of quantile
values the per-base quality module emits is monotonically non-decreasing
(10th ≤ 25th ≤ 50th ≤ 75th ≤ 90th).  This covers every position-group,
whether or not its total base count is positive: a group whose extracted
count is positive gets fresh threshold crossings in increasing order, and a
group whose extracted count is zero (e.g. the clamped final group `[74, 76]`
of a 76-base run, whose last position holds no bases) re-emits the previous,
already ordered registers. -/
theorem per_base_quality_quantiles_monotone (stats : QualityStats)
    (gs : List BaseGroup) (carried : QuantState)
    (hwf : WellFormed stats) (hcar : Monotone5 carried) :
    ∀ q ∈ group_quantiles_run stats carried gs, Monotone5 q := by
  induction gs generalizing carried with
  | nil => intro q hq; simp [group_quantiles_run] at hq
  | cons g rest ih =>
    intro q hq
    rcases List.mem_cons.mp hq with rfl | hq2
    · exact group_quantiles_monotone_step stats g carried
        (wellFormed_group_sum stats hwf g) hcar
    · exact ih (group_quantiles stats g carried)
        (group_quantiles_monotone_step stats g carried
          (wellFormed_group_sum stats hwf g) hcar) q hq2

set_option maxRecDepth 8000 in
/-- `qualityStatsEx` is well-formed: at positions below 76 both the histogram
sum and the base count are 10, beyond they are 0. -/
theorem qualityStatsEx_wellFormed : WellFormed qualityStatsEx := by
  intro i
  by_cases hi : i < 76
  · have hcongr : ∀ j, j < kNumQualityValues →
        qualityStatsEx.position_quality_count i j = (fun j => if j = 30 then 10 else 0) j := by
      intro j _
      simp [qualityStatsEx, hi]
    rw [sumRangeNat_congr _ _ _ hcongr]
    have h10 : sumRangeNat (fun j => if j = 30 then 10 else 0) kNumQualityValues = 10 := by
      decide
    rw [h10]
    simp [qualityStatsEx, hi]
  · have hcongr : ∀ j, j < kNumQualityValues →
        qualityStatsEx.position_quality_count i j = (fun _ => 0) j := by
      intro j _
      simp [qualityStatsEx, hi]
    rw [sumRangeNat_congr _ _ _ hcongr, sumRangeNat_zero_fn]
    simp [qualityStatsEx, hi]

/-- Witness for C10: the run over the single group `[0, 0]` of
`qualityStatsEx`, from the module's zero-initialized registers. -/
theorem per_base_quality_quantiles_monotone_witness :
    Monotone5 (group_quantiles qualityStatsEx ⟨0, 0⟩ ⟨0, 0, 0, 0, 0, 0, 0⟩) :=
  per_base_quality_quantiles_monotone qualityStatsEx [⟨0, 0⟩] ⟨0, 0, 0, 0, 0, 0, 0⟩
    qualityStatsEx_wellFormed ⟨Nat.le_refl 0, Nat.le_refl 0, Nat.le_refl 0, Nat.le_refl 0⟩
    (group_quantiles qualityStatsEx ⟨0, 0⟩ ⟨0, 0, 0, 0, 0, 0, 0⟩)
    (List.mem_cons_self _ _)

/-! ## Module lifecycle and emission ordering
(Module.cpp, Module::Module lines 235-256, Module::write and
Module::write_short_summary lines 262-280, Module::summarize lines 284-290) -/

/-- The lifecycle-relevant state of an abstract `Module`: the constructor
(line 254-255) sets `grade = "pass"` and `summarized = false`. -/
structure ModuleState where
  module_name : String
  grade : String
  html_data : String
  summarized : Bool

/-- The `Module` constructor (lines 235-256; the placeholder strings are
derived output text and are not modelled). -/
def ModuleState.mk_module (module_name : String) : ModuleState :=
  { module_name := module_name, grade := "pass", html_data := "", summarized := false }

/-- `Module::write` (lines 262-270): throws when the module has not been
summarized, otherwise emits the module block.  The virtual `write_module`
body is abstracted as the `body` argument. -/
def ModuleState.write (m : ModuleState) (body : String) : Except String String :=
  if !m.summarized then
    Except.error ("Attempted to write module before summarizing : " ++ m.module_name)
  else
    Except.ok (">>" ++ m.module_name ++ "\t" ++ m.grade ++ "\n" ++ body ++ ">>END_MODULE\n")

/-- `Module::write_short_summary` (lines 272-280): same ordering check,
emitting the one-line summary. -/
def ModuleState.write_short_summary (m : ModuleState) (filename : String) :
    Except String String :=
  if !m.summarized then
    Except.error ("Attempted to write module before summarizing : " ++ m.module_name)
  else
    Except.ok (m.grade.toUpper ++ "\t" ++ m.module_name ++ "\t" ++ filename ++ "\n")

/-- `Module::summarize` (lines 284-290): runs the module-specific
`summarize_module` and `make_grade` (abstracted as the resulting `new_grade`)
and `make_html_data` (abstracted as `html`), then — and only then — sets the
`summarized` flag. -/
def ModuleState.summarize (m : ModuleState) (new_grade html : String) : ModuleState :=
  { m with grade := new_grade, html_data := html, summarized := true }

/-- C9: for every module, calling `write` or `write_short_summary` on a
freshly constructed (not yet summarized) module yields the ordering error,
and after `summarize` has run, both calls succeed (no ordering error),
whatever the module's state was before. -/
theorem module_emission_ordering (name body filename new_grade html : String)
    (m : ModuleState) :
    ModuleState.write (ModuleState.mk_module name) body =
      Except.error ("Attempted to write module before summarizing : " ++ name) ∧
    ModuleState.write_short_summary (ModuleState.mk_module name) filename =
      Except.error ("Attempted to write module before summarizing : " ++ name) ∧
    ModuleState.write (m.summarize new_grade html) body =
      Except.ok (">>" ++ m.module_name ++ "\t" ++ new_grade ++ "\n" ++ body ++
        ">>END_MODULE\n") ∧
    ModuleState.write_short_summary (m.summarize new_grade html) filename =
      Except.ok (new_grade.toUpper ++ "\t" ++ m.module_name ++ "\t" ++ filename ++ "\n") :=
  ⟨rfl, rfl, rfl, rfl⟩

/-! ## Grade escalation (C8)

Each module's `make_grade` runs exactly once per run, on the grade the
constructor initialized to `"pass"` (Module.cpp lines 254 and 284-290).  The
grade-touching statements of each `make_grade` are modelled as a list of
steps `Grade → Grade` executed left to right; `gradeTrace` records every
intermediate grade of the run. -/

/-- The three-valued grade. -/
inductive Grade where
  | pass
  | warn
  | fail
deriving DecidableEq, Repr

/-- Escalation rank: `pass < warn < fail`. -/
def Grade.rank : Grade → Nat
  | .pass => 0
  | .warn => 1
  | .fail => 2

/-- All grades a run passes through, starting from the constructor's
`"pass"`. -/
def gradeTrace (steps : List (Grade → Grade)) : List Grade :=
  List.scanl (fun g f => f g) Grade.pass steps

/-- A run whose first grade is `pass` and whose successive grades only ever
escalate. -/
def GradeChain (steps : List (Grade → Grade)) : Prop :=
  (gradeTrace steps).head? = some Grade.pass ∧
  List.Chain' (fun a b => a.rank ≤ b.rank) (gradeTrace steps)

theorem scanl_head (f : Grade → (Grade → Grade) → Grade) (b : Grade)
    (l : List (Grade → Grade)) : (List.scanl f b l).head? = some b := by
  cases l <;> simp [List.scanl]

theorem gradeTrace_head (steps : List (Grade → Grade)) :
    (gradeTrace steps).head? = some Grade.pass :=
  scanl_head _ _ _

theorem scanl_chain_of_escalating :
    ∀ (steps : List (Grade → Grade)), (∀ f ∈ steps, ∀ g, g.rank ≤ (f g).rank) →
    ∀ g0 : Grade,
      List.Chain' (fun a b => a.rank ≤ b.rank) (List.scanl (fun g f => f g) g0 steps) := by
  intro steps
  induction steps with
  | nil => intro _ g0; simp [List.scanl]
  | cons f rest ih =>
    intro h g0
    rw [List.scanl_cons, List.singleton_append]
    refine List.chain'_cons'.mpr ⟨?_, ?_⟩
    · intro y hy
      rw [scanl_head] at hy
      cases hy
      exact h f (List.mem_cons_self f rest) g0
    · exact ih (fun f2 hf2 g => h f2 (List.mem_cons_of_mem f hf2) g) _

theorem gradeChain_of_escalating (steps : List (Grade → Grade))
    (h : ∀ f ∈ steps, ∀ g, g.rank ≤ (f g).rank) : GradeChain steps :=
  ⟨gradeTrace_head steps, scanl_chain_of_escalating steps h Grade.pass⟩

theorem gradeChain_single (f : Grade → Grade) : GradeChain [f] :=
  ⟨rfl, List.chain'_cons.mpr ⟨Nat.zero_le _, List.chain'_singleton _⟩⟩

theorem gradeChain_pair (f1 f2 : Grade → Grade) (h2 : ∀ g, g.rank ≤ (f2 g).rank) :
    GradeChain [f1, f2] :=
  ⟨rfl, List.chain'_cons.mpr ⟨Nat.zero_le _, List.chain'_pair.mpr (h2 (f1 Grade.pass))⟩⟩

/-- `ModuleBasicStatistics::make_grade` (lines 345-347) is empty: no grade
step. -/
def basic_statistics_grade_steps : List (Grade → Grade) := []

/-- The counting loop of `ModulePerBaseSequenceQuality::make_grade`
(lines 521-533): over the per-group `(lquartile, median)` pairs, count groups
below the error thresholds and groups below the warn thresholds; the loop
reads but never writes the grade, so the guard sees the entry grade `g`
throughout. -/
def pbsq_counts (g : Grade) (groups : List (Nat × Nat))
    (base_lower_warn base_lower_error base_median_warn base_median_error : ℚ) :
    Nat × Nat :=
  groups.foldl
    (fun acc lqmd =>
      if g ≠ Grade.fail then
        if (lqmd.1 : ℚ) < base_lower_error ∨ (lqmd.2 : ℚ) < base_median_error then
          (acc.1 + 1, acc.2)
        else if (lqmd.1 : ℚ) < base_lower_warn ∨ (lqmd.2 : ℚ) < base_median_warn then
          (acc.1, acc.2 + 1)
        else acc
      else acc)
    (0, 0)

/-- The single grade assignment of `ModulePerBaseSequenceQuality::make_grade`
(lines 536-539): `fail` when any group crossed the error thresholds, else
`warn` when any crossed the warn thresholds. -/
def pbsq_grade_steps (groups : List (Nat × Nat)) (blw ble bmw bme : ℚ) :
    List (Grade → Grade) :=
  [fun g =>
    if 0 < (pbsq_counts g groups blw ble bmw bme).1 then Grade.fail
    else if 0 < (pbsq_counts g groups blw ble bmw bme).2 then Grade.warn
    else g]

/-- One (tile, position) step of `ModulePerTileSequenceQuality::make_grade`
(lines 659-669), guarded by `grade != "fail"`; only deviations at or below
the negated thresholds escalate. -/
def tile_grade_step (grade_warn grade_error : ℚ) (v : ℚ) (g : Grade) : Grade :=
  if g ≠ Grade.fail then
    if v ≤ -grade_error then Grade.fail
    else if v ≤ -grade_warn then Grade.warn
    else g
  else g

/-- `ModulePerTileSequenceQuality::make_grade` (lines 656-671): the reset
`grade = "pass"` at line 658, then the guarded loop over every
(tile, position) deviation. -/
def per_tile_grade_steps (grade_warn grade_error : ℚ) (devs : List ℚ) :
    List (Grade → Grade) :=
  (fun _ => Grade.pass) :: devs.map (tile_grade_step grade_warn grade_error)

/-- `ModulePerSequenceQualityScores::make_grade` (lines 756-765): two
sequential unguarded checks of the modal quality value. -/
def psqs_grade_steps (mode_ind : Nat) (mode_warn mode_error : ℚ) :
    List (Grade → Grade) :=
  [fun g => if (mode_ind : ℚ) < mode_warn then Grade.warn else g,
   fun g => if (mode_ind : ℚ) < mode_error then Grade.fail else g]

/-- `ModulePerBaseSequenceContent::make_grade` (lines 874-882): one check of
the maximum pairwise divergence. -/
def pbsc_grade_steps (max_diff sequence_warn sequence_error : ℚ) :
    List (Grade → Grade) :=
  [fun g =>
    if max_diff > sequence_error then Grade.fail
    else if max_diff > sequence_warn then Grade.warn
    else g]

/-- `ModulePerSequenceGCContent::make_grade` (lines 962-970): one check of
the deviation percentage. -/
def gc_grade_steps (gc_deviation gc_warn gc_error : ℚ) : List (Grade → Grade) :=
  [fun g =>
    if gc_deviation ≥ gc_error then Grade.fail
    else if gc_deviation ≥ gc_warn then Grade.warn
    else g]

/-- One position step of `ModulePerBaseNContent::make_grade`
(lines 1047-1057), guarded by `grade != "fail"`. -/
def n_content_grade_step (grade_n_warn grade_n_error : ℚ) (x : ℚ) (g : Grade) : Grade :=
  if g ≠ Grade.fail then
    if x > grade_n_error then Grade.fail
    else if x > grade_n_warn then Grade.warn
    else g
  else g

/-- `ModulePerBaseNContent::make_grade` over the per-position N
percentages. -/
def n_content_grade_steps (grade_n_warn grade_n_error : ℚ) (n_pct : List ℚ) :
    List (Grade → Grade) :=
  n_pct.map (n_content_grade_step grade_n_warn grade_n_error)

/-- `ModuleSequenceLengthDistribution::make_grade` (lines 1130-1141): the
config-gated warn check on non-uniform lengths, then the config-gated fail
check on empty reads. -/
def seq_length_grade_steps (do_grade_warn do_grade_error is_all_same_length has_empty_read :
    Bool) : List (Grade → Grade) :=
  [fun g => if do_grade_warn && !is_all_same_length then Grade.warn else g,
   fun g => if do_grade_error && has_empty_read then Grade.fail else g]

/-- `ModuleSequenceDuplicationLevels::make_grade` (lines 1262-1271): one
check of the total deduplicated percentage (low is bad, comparisons are
`≤`). -/
def duplication_grade_steps (total_deduplicated_pct grade_dup_warn grade_dup_error : ℚ) :
    List (Grade → Grade) :=
  [fun g =>
    if total_deduplicated_pct ≤ grade_dup_error then Grade.fail
    else if total_deduplicated_pct ≤ grade_dup_warn then Grade.warn
    else g]

/-- One retained-sequence step of
`ModuleOverrepresentedSequences::make_grade` (lines 1395-1409), guarded by
`grade != "fail"`: the sequence's percentage of total reads against the
thresholds. -/
def overrep_grade_step (num_reads : Nat) (grade_warn grade_error : ℚ) (count : Nat)
    (g : Grade) : Grade :=
  if g ≠ Grade.fail then
    if 100 * (count : ℚ) / (num_reads : ℚ) > grade_error then Grade.fail
    else if 100 * (count : ℚ) / (num_reads : ℚ) > grade_warn then Grade.warn
    else g
  else g

/-- `ModuleOverrepresentedSequences::make_grade` over the retained sequence
counts. -/
def overrep_grade_steps (num_reads : Nat) (grade_warn grade_error : ℚ)
    (counts : List Nat) : List (Grade → Grade) :=
  counts.map (overrep_grade_step num_reads grade_warn grade_error)

/-- One (position, adapter) step of `ModuleAdapterContent::make_grade`
(lines 1507-1520), guarded by `grade != "fail"`. -/
def adapter_grade_step (grade_warn grade_error : ℚ) (x : ℚ) (g : Grade) : Grade :=
  if g ≠ Grade.fail then
    if x > grade_error then Grade.fail
    else if x > grade_warn then Grade.warn
    else g
  else g

/-- `ModuleAdapterContent::make_grade` over every cumulative adapter
percentage cell. -/
def adapter_grade_steps (grade_warn grade_error : ℚ) (cells : List ℚ) :
    List (Grade → Grade) :=
  cells.map (adapter_grade_step grade_warn grade_error)

/-- `ModuleKmerContent::make_grade` (lines 1652-1655): unconditionally
`fail`. -/
def kmer_grade_steps : List (Grade → Grade) := [fun _ => Grade.fail]

theorem tile_grade_step_escalating (w e v : ℚ) (g : Grade) :
    g.rank ≤ (tile_grade_step w e v g).rank := by
  unfold tile_grade_step
  cases g <;> simp [Grade.rank] <;> split_ifs <;> simp [Grade.rank]

theorem n_content_grade_step_escalating (w e x : ℚ) (g : Grade) :
    g.rank ≤ (n_content_grade_step w e x g).rank := by
  unfold n_content_grade_step
  cases g <;> simp [Grade.rank] <;> split_ifs <;> simp [Grade.rank]

theorem overrep_grade_step_escalating (nr : Nat) (w e : ℚ) (c : Nat) (g : Grade) :
    g.rank ≤ (overrep_grade_step nr w e c g).rank := by
  unfold overrep_grade_step
  cases g <;> simp [Grade.rank] <;> split_ifs <;> simp [Grade.rank]

theorem adapter_grade_step_escalating (w e x : ℚ) (g : Grade) :
    g.rank ≤ (adapter_grade_step w e x g).rank := by
  unfold adapter_grade_step
  cases g <;> simp [Grade.rank] <;> split_ifs <;> simp [Grade.rank]

theorem to_fail_step_escalating (c : Prop) [Decidable c] (g : Grade) :
    g.rank ≤ (if c then Grade.fail else g).rank := by
  split_ifs
  · cases g <;> simp [Grade.rank]
  · exact le_refl _

/-- C8: in every module, a run's grade starts at `pass` and only ever
escalates along `pass → warn → fail`: the full trace of intermediate grades
of each `make_grade`, run from the constructor's `pass` as in
`Module::summarize`, is monotonically non-decreasing in escalation rank —
for all twelve modules and all summary data and thresholds. -/
theorem module_grades_escalate_only
    (groups : List (Nat × Nat)) (blw ble bmw bme : ℚ)
    (tile_warn tile_error : ℚ) (devs : List ℚ)
    (mode_ind : Nat) (mode_warn mode_error : ℚ)
    (max_diff sequence_warn sequence_error : ℚ)
    (gc_deviation gc_warn gc_error : ℚ)
    (grade_n_warn grade_n_error : ℚ) (n_pct : List ℚ)
    (do_grade_warn do_grade_error is_all_same_length has_empty_read : Bool)
    (total_deduplicated_pct grade_dup_warn grade_dup_error : ℚ)
    (num_reads : Nat) (overrep_warn overrep_error : ℚ) (overrep_counts : List Nat)
    (adapter_warn adapter_error : ℚ) (adapter_cells : List ℚ) :
    GradeChain basic_statistics_grade_steps ∧
    GradeChain (pbsq_grade_steps groups blw ble bmw bme) ∧
    GradeChain (per_tile_grade_steps tile_warn tile_error devs) ∧
    GradeChain (psqs_grade_steps mode_ind mode_warn mode_error) ∧
    GradeChain (pbsc_grade_steps max_diff sequence_warn sequence_error) ∧
    GradeChain (gc_grade_steps gc_deviation gc_warn gc_error) ∧
    GradeChain (n_content_grade_steps grade_n_warn grade_n_error n_pct) ∧
    GradeChain (seq_length_grade_steps do_grade_warn do_grade_error is_all_same_length
      has_empty_read) ∧
    GradeChain (duplication_grade_steps total_deduplicated_pct grade_dup_warn
      grade_dup_error) ∧
    GradeChain (overrep_grade_steps num_reads overrep_warn overrep_error overrep_counts) ∧
    GradeChain (adapter_grade_steps adapter_warn adapter_error adapter_cells) ∧
    GradeChain kmer_grade_steps := by
  refine ⟨⟨rfl, List.chain'_singleton _⟩, gradeChain_single _, ?_, ?_, gradeChain_single _,
    gradeChain_single _, ?_, ?_, gradeChain_single _, ?_, ?_, gradeChain_single _⟩
  · -- per tile: the reset to pass, then the guarded escalating loop
    refine ⟨gradeTrace_head _, ?_⟩
    unfold gradeTrace per_tile_grade_steps
    rw [List.scanl_cons, List.singleton_append]
    refine List.chain'_cons'.mpr ⟨?_, ?_⟩
    · intro y hy
      rw [scanl_head] at hy
      cases hy
      exact Nat.zero_le _
    · refine scanl_chain_of_escalating _ ?_ _
      intro f hf g
      obtain ⟨v, _, rfl⟩ := List.mem_map.mp hf
      exact tile_grade_step_escalating tile_warn tile_error v g
  · -- per sequence quality scores: second step only ever raises to fail
    exact gradeChain_pair _ _ (fun g => to_fail_step_escalating _ g)
  · -- N content: guarded escalating loop
    refine gradeChain_of_escalating _ ?_
    intro f hf g
    obtain ⟨x, _, rfl⟩ := List.mem_map.mp hf
    exact n_content_grade_step_escalating grade_n_warn grade_n_error x g
  · -- sequence length: second step only ever raises to fail
    exact gradeChain_pair _ _ (fun g => to_fail_step_escalating _ g)
  · -- overrepresented sequences: guarded escalating loop
    refine gradeChain_of_escalating _ ?_
    intro f hf g
    obtain ⟨c, _, rfl⟩ := List.mem_map.mp hf
    exact overrep_grade_step_escalating num_reads overrep_warn overrep_error c g
  · -- adapter content: guarded escalating loop
    refine gradeChain_of_escalating _ ?_
    intro f hf g
    obtain ⟨x, _, rfl⟩ := List.mem_map.mp hf
    exact adapter_grade_step_escalating adapter_warn adapter_error x g
